import Mathlib

/-!
# Verification of the STX Trade-From-Chart account engine

A shallow embedding of the order/position/trade domain model implemented by
`STX.Account` and `STX.Account.Demo` (file `src/unnamed/part_000`), together
with proofs and refutations of the specified properties.

Modelling conventions:
* JavaScript numbers used as prices are modelled as `Rat`; share quantities
  as `Int` (the engine only ever adds, subtracts and negates them).
* JavaScript objects keyed by symbol (`positions`, `trades`, `openOrders`)
  are modelled as association lists `List (String × α)` in insertion order,
  with lookup returning the first binding.  `setKey` overwrites the first
  binding in place (or appends a fresh one) and `eraseKey` drops the key,
  mirroring property assignment and `delete`.
* Optional object fields are `Option _`; JavaScript truthiness of a numeric
  field is `truthy` (absent or `0` is falsy), of a string field `truthyStr`
  (absent or empty is falsy).
* Code paths that throw a `TypeError` (property access on `undefined`) are
  modelled by returning `none`; a `some` result is a run that completes.
-/

/-- JavaScript truthiness of an optional numeric field: `undefined` and `0`
are falsy. -/
def truthy : Option Rat → Bool
  | none => false
  | some x => x != 0

/-- JavaScript truthiness of an optional string field: `undefined` and the
empty string are falsy. -/
def truthyStr : Option String → Bool
  | none => false
  | some s => s != ""

/-- Loose equality between two possibly-absent ids, as JavaScript `==`
compares them: `undefined == undefined` holds, `undefined == "x"` does not. -/
def jsEqOptStr : Option String → Option String → Bool
  | none, none => true
  | some a, some b => a == b
  | _, _ => false

/-- `Number.prototype.toFixed(2)` on an exact rational: round to the nearest
multiple of 1/100, ties toward the larger value. -/
def toFixed2 (x : Rat) : Rat := (Rat.floor (x * 100 + 1/2) : Int) / 100

/-- `String.prototype.indexOf(c) != -1` for a single character, over the
character sequence of the string. -/
def containsChar (s : String) (c : Char) : Bool := s.data.contains c

/-- Symbol-keyed JavaScript object, in property-insertion order. -/
abbrev SymMap (α : Type) := List (String × α)

/-- First binding of key `k`, as JavaScript property lookup. -/
def SymMap.find? {α : Type} : SymMap α → String → Option α
  | [], _ => none
  | (k', v) :: rest, k => if k' == k then some v else SymMap.find? rest k

/-- Property assignment `m[k] = v`: overwrite the first binding of `k` in
place, else append a fresh binding. -/
def SymMap.setKey {α : Type} : SymMap α → String → α → SymMap α
  | [], k, v => [(k, v)]
  | (k', v') :: rest, k, v =>
    if k' == k then (k, v) :: rest else (k', v') :: SymMap.setKey rest k v

/-- `delete m[k]`: drop every binding of `k`. -/
def SymMap.eraseKey {α : Type} : SymMap α → String → SymMap α
  | [], _ => []
  | (k', v) :: rest, k =>
    if k' == k then SymMap.eraseKey rest k else (k', v) :: SymMap.eraseKey rest k

theorem SymMap.find?_setKey_self {α : Type} (m : SymMap α) (k : String) (v : α) :
    (m.setKey k v).find? k = some v := by
  induction m with
  | nil => simp [SymMap.setKey, SymMap.find?]
  | cons p rest ih =>
    by_cases h : p.1 == k <;> simp [SymMap.setKey, SymMap.find?, h, ih]

theorem SymMap.find?_setKey_ne {α : Type} (m : SymMap α) (k k' : String) (v : α)
    (h : k ≠ k') : (m.setKey k v).find? k' = m.find? k' := by
  induction m with
  | nil => simp [SymMap.setKey, SymMap.find?, h]
  | cons p rest ih =>
    by_cases hp : p.1 == k
    · have hpk : p.1 = k := by simpa using hp
      simp [SymMap.setKey, SymMap.find?, hp, hpk, show ¬ (k == k') by simpa using h]
    · simp [SymMap.setKey, SymMap.find?, hp, ih]

theorem SymMap.find?_eraseKey_self {α : Type} (m : SymMap α) (k : String) :
    (m.eraseKey k).find? k = none := by
  induction m with
  | nil => simp [SymMap.eraseKey, SymMap.find?]
  | cons p rest ih =>
    by_cases hp : p.1 == k <;> simp [SymMap.eraseKey, SymMap.find?, hp, ih]

theorem SymMap.find?_eraseKey_ne {α : Type} (m : SymMap α) (k k' : String)
    (h : k ≠ k') : (m.eraseKey k).find? k' = m.find? k' := by
  induction m with
  | nil => simp [SymMap.eraseKey, SymMap.find?]
  | cons p rest ih =>
    by_cases hp : p.1 == k
    · have hpk : p.1 = k := by simpa using hp
      simp [SymMap.eraseKey, SymMap.find?, hp, hpk,
        show ¬ (k == k') by simpa using h, ih]
    · by_cases hq : p.1 == k' <;> simp [SymMap.eraseKey, SymMap.find?, hp, hq, ih]

/-! ## Tradability (STX.Account.prototype.tradability) -/

/-- Result record passed to the `tradability` callback (the
`decimalPrecision` field is always `null` in the default policy and is
omitted). -/
structure Tradability where
  tradable : Bool
  shortable : Bool
  marketable : Bool
deriving DecidableEq

/-- The nested `isIndex` helper of `STX.Account.prototype.tradability`:
a symbol containing a dollar sign is an index; a symbol containing a caret
is an index unless it has exactly 7 characters (a forex symbol). -/
def isIndex (symbol : String) : Bool :=
  if containsChar symbol '$' then true
  else if containsChar symbol '^' then
    if symbol.length == 7 then false else true
  else false

/-- `STX.Account.prototype.tradability`: the argument is `none` for an
absent symbol; the empty string is likewise falsy in the guard. -/
def tradability (symbol : Option String) : Tradability :=
  let t : Tradability := { tradable := true, shortable := true, marketable := true }
  match symbol with
  | none => { t with tradable := false }
  | some s =>
    if s == "" then { t with tradable := false }
    else if isIndex s then { t with tradable := false }
    else t

theorem isIndex_eq (s : String) :
    isIndex s = (containsChar s '$' ||
      (containsChar s '^' && !(s.length == 7))) := by
  unfold isIndex
  by_cases hd : containsChar s '$'
  · simp [hd]
  · by_cases hc : containsChar s '^'
    · by_cases hl : s.length == 7 <;> simp [hd, hc, hl]
    · simp [hd, hc]

/-- C8 counterexample: the claim says a 7-character symbol containing a
caret is reported non-tradable, but the code classifies such a symbol as
forex and reports it tradable. -/
theorem tradability_seven_char_caret :
    (tradability (some "USD^JPY")).tradable = true := by decide

/-- C8 (amended): the default tradability policy reports tradable = false
exactly when the symbol is absent or empty, contains a dollar sign, or
contains a caret while not having exactly 7 characters; shortable and
marketable are always reported true. -/
theorem tradability_characterization (s : Option String) :
    (tradability s).shortable = true ∧ (tradability s).marketable = true ∧
    ((tradability s).tradable = false ↔
      (s = none ∨ ∃ str, s = some str ∧
         (str = "" ∨ containsChar str '$' = true ∨
          (containsChar str '^' = true ∧ str.length ≠ 7)))) := by
  cases s with
  | none => simp [tradability]
  | some str =>
    refine ⟨?_, ?_, ?_⟩
    · by_cases h0 : str == ""
      · simp [tradability, h0]
      · by_cases h1 : isIndex str <;> simp [tradability, h0, h1]
    · by_cases h0 : str == ""
      · simp [tradability, h0]
      · by_cases h1 : isIndex str <;> simp [tradability, h0, h1]
    · by_cases h0 : str == ""
      · have he : str = "" := by simpa using h0
        subst he
        simp [tradability]
      · have hne : str ≠ "" := by simpa using h0
        by_cases hd : containsChar str '$'
        · simp [tradability, h0, isIndex_eq, hd, hne]
        · by_cases hc : containsChar str '^'
          · by_cases hl : str.length == 7
            · have hl7 : str.length = 7 := by simpa using hl
              simp [tradability, h0, isIndex_eq, hd, hc, hl, hne, hl7]
            · have hl7 : str.length ≠ 7 := by simpa using hl
              simp [tradability, h0, isIndex_eq, hd, hc, hl, hne, hl7]
          · simp [tradability, h0, isIndex_eq, hd, hc, hne]

/-! ## Data model of the Demo account -/

/-- The protect sub-object of a trade: prices of the attached protective
limit and stop legs. -/
structure Protect where
  limit : Option Rat
  stop : Option Rat
deriving DecidableEq

/-- A trade (open tax lot). The currency field of the demo data is never
read or written by the engine and is omitted. -/
structure Trade where
  id : String
  time : Nat
  quantity : Int
  basis : Rat
  price : Rat
  protect : Option Protect
deriving DecidableEq

/-- A position: one per symbol. -/
structure Position where
  quantity : Int
  basis : Rat
  price : Rat
  prevClose : Rat
deriving DecidableEq

/-- The oco field of an open order: null, a sibling order id, or the
literal true used for a single-leg OCO. -/
inductive OcoRef where
  | jnull : OcoRef
  | jid : String → OcoRef
  | jtrue : OcoRef
deriving DecidableEq

/-- A child order inside an oto array; execute reads only its limit and
stop prices. -/
structure OtoLeg where
  limit : Option Rat
  stop : Option Rat
deriving DecidableEq

/-- An order record. Orders enter placeOrder without an id (`none`); resting
orders carry the id assigned at placement. The protective orders the engine
synthesizes carry no symbol property in the source; the field is unused for
resting orders and is set to the filled symbol here. -/
structure Order where
  id : Option String
  symbol : String
  action : String
  quantity : Int
  limit : Option Rat
  stop : Option Rat
  marketIfTouched : Option Rat
  tif : String
  oco : OcoRef
  tradeid : Option String
  vspId : Option String
  oto : Option (List OtoLeg)
deriving DecidableEq

/-- The Demo account state: balances, the three symbol-keyed maps, and the
id-generation counter. -/
structure Demo where
  cash : Rat
  buyingPower : Rat
  positions : SymMap Position
  trades : SymMap (List Trade)
  openOrders : SymMap (List Order)
  nextId : Nat
deriving DecidableEq

/-- Modelled from the spec: STX.uniqueID is defined outside the files of
this repository; the spec requires only that each generated id be fresh and
unique, so it is modelled as a counter-derived identifier. -/
def uniqueID (n : Nat) : String := "uid" ++ toString n

/-- JavaScript truthiness of the optional quantity of the candidate new
trade: unassigned and 0 are falsy. -/
def truthyInt : Option Int → Bool
  | none => false
  | some v => v != 0

/-- The leg-picking conditionals building newTrade.protect from order.oto:
take the price of oto[0] if that child exists and the price is truthy, else
the price of oto[1] under the same test. -/
def otoPick (legs : List OtoLeg) (f : OtoLeg → Option Rat) : Option Rat :=
  match legs.get? 0 with
  | some l0 =>
    if truthy (f l0) then f l0
    else
      match legs.get? 1 with
      | some l1 => if truthy (f l1) then f l1 else none
      | none => none
  | none =>
    match legs.get? 1 with
    | some l1 => if truthy (f l1) then f l1 else none
    | none => none

/-- The closing-fill lot-consumption loop of execute: walk the trade list in
order; skip lots whose id differs from a truthy vspId; fully consume a lot
whose magnitude is at most the residual (removing the protective open orders
referencing it when it is protected); otherwise shrink the lot by the
residual (shrinking protective order quantities likewise) and stop. Returns
the remaining lots, the residual quantity, and the updated open orders. -/
def consumeLots (vspId : Option String) :
    List Trade → Int → List Order → List Trade × Int × List Order
  | [], qty, oo => ([], qty, oo)
  | tr :: rest, qty, oo =>
    if truthyStr vspId && (tr.id != vspId.getD "") then
      let res := consumeLots vspId rest qty oo
      (tr :: res.1, res.2)
    else if tr.quantity.natAbs ≤ qty.natAbs then
      let oo' := if tr.protect.isSome then
          oo.filter (fun o => !(jsEqOptStr o.tradeid (some tr.id))) else oo
      consumeLots vspId rest (qty - tr.quantity) oo'
    else
      let oo' := if tr.protect.isSome then
          oo.map (fun o => if jsEqOptStr o.tradeid (some tr.id) then
            { o with quantity := o.quantity - qty } else o) else oo
      ({ tr with quantity := tr.quantity - qty } :: rest, 0, oo')

/-- The filled-order removal loop at the end of execute: splice out the
first open order whose id equals the executed order id, then stop. -/
def removeFirstById (targetId : Option String) : List Order → List Order
  | [] => []
  | o :: rest =>
    if jsEqOptStr o.id targetId then rest else o :: removeFirstById targetId rest

/-- The position-update block of execute: create the position on first fill;
otherwise reclassify the action against a short position, recompute the
weighted basis for an opening action, add the signed quantity and delete the
position when it reaches exactly zero. Returns the updated positions map and
the (possibly reclassified) action, since the source mutates order.action in
place. -/
def executePositions (order : Order) (quantity : Int) (price : Rat)
    (pmap : SymMap Position) : SymMap Position × String :=
  match pmap.find? order.symbol with
  | none =>
    (pmap.setKey order.symbol
      { quantity := quantity, basis := price, price := price, prevClose := price },
     order.action)
  | some position =>
    let action :=
      if position.quantity < 0 then
        if order.action == "buy" then "cover"
        else if order.action == "sell" then "short"
        else order.action
      else order.action
    let basis :=
      if action == "buy" || action == "short" then
        toFixed2 (((position.quantity : Rat) * position.basis + (quantity : Rat) * price)
          / ((position.quantity : Rat) + (quantity : Rat)))
      else position.basis
    let q' := position.quantity + quantity
    if q' == 0 then (pmap.eraseKey order.symbol, action)
    else
      (pmap.setKey order.symbol
        { quantity := q', basis := basis, price := price, prevClose := position.prevClose },
       action)

/-- The lot-accounting block of execute over the (key-ensured) trade list of
the symbol: an opening action pushes a new full-quantity trade; a closing
action runs the consumption loop and pushes the residual as an opposite-sign
trade, the trade list being deleted when consumption empties it. Returns the
updated trades map, the quantity assigned to newTrade (none when the field
is never assigned) and the open-order list as updated by the consumption
loop. -/
def executeTrades (order : Order) (action : String) (quantity : Int) (price : Rat)
    (now : Nat) (newTradeId : String) (protect : Option Protect)
    (trades0 : SymMap (List Trade)) (tl : List Trade) (oo : List Order) :
    SymMap (List Trade) × Option Int × List Order :=
  if action == "buy" || action == "short" then
    (trades0.setKey order.symbol
      (tl ++ [{ id := newTradeId, time := now, quantity := quantity,
                basis := price, price := price, protect := protect }]),
     some quantity, oo)
  else
    let res := consumeLots order.vspId tl (-quantity) oo
    let tl' := res.1
    let qtyF := res.2.1
    let oo1 := res.2.2
    if qtyF == 0 then
      (if tl'.isEmpty then trades0.eraseKey order.symbol
       else trades0.setKey order.symbol tl',
       none, oo1)
    else
      (trades0.setKey order.symbol
        (tl' ++ [{ id := newTradeId, time := now, quantity := -qtyF,
                   basis := price, price := price, protect := protect }]),
       some (-qtyF), oo1)

/-- The protective-order synthesis block of execute: when the new trade was
assigned a truthy quantity and a protect object, push an OCO-paired
protective order per truthy leg. Returns the final open-order list and the
number of ids consumed beyond the new trade id. -/
def executeProtectOrders (order : Order) (action : String) (newTradeId : String)
    (newTradeQ : Option Int) (protect : Option Protect) (uid : String)
    (oo2 : List Order) : List Order × Bool :=
  match truthyInt newTradeQ, protect with
  | true, some p =>
    let protAction := if action == "buy" then "sell" else "cover"
    let qAbs : Int := ((newTradeQ.getD 0).natAbs : Int)
    let limLeg : List Order :=
      if truthy p.limit then
        [{ id := some (uid ++ "A"), symbol := order.symbol, action := protAction,
           quantity := qAbs, limit := p.limit, stop := none, marketIfTouched := none,
           tif := "GTC",
           oco := if truthy p.stop then OcoRef.jid (uid ++ "B") else OcoRef.jnull,
           tradeid := some newTradeId, vspId := none, oto := none }]
      else []
    let stopLeg : List Order :=
      if truthy p.stop then
        [{ id := some (uid ++ "B"), symbol := order.symbol, action := protAction,
           quantity := qAbs, limit := none, stop := p.stop, marketIfTouched := none,
           tif := "GTC",
           oco := if truthy p.limit then OcoRef.jid (uid ++ "A") else OcoRef.jnull,
           tradeid := some newTradeId, vspId := none, oto := none }]
      else []
    (oo2 ++ limLeg ++ stopLeg, true)
  | _, _ => (oo2, false)

/-- The signed fill quantity: negated for a sell or short action. -/
def signedQty (order : Order) : Int :=
  if order.action == "sell" || order.action == "short" then -order.quantity
  else order.quantity

/-- newTrade.protect as built from order.oto: absent when the order has no
oto array, else the pair of leg prices picked by the two else-if chains. -/
def otoProtect (oto : Option (List OtoLeg)) : Option Protect :=
  match oto with
  | none => none
  | some legs =>
    some { limit := otoPick legs (fun l => l.limit), stop := otoPick legs (fun l => l.stop) }

/-- The guard creating an empty trade list for the symbol when none
exists. -/
def ensureTrades (m : SymMap (List Trade)) (sym : String) : SymMap (List Trade) :=
  match m.find? sym with
  | none => m.setKey sym []
  | some _ => m

/-- The body of execute for a run on which this.openOrders[order.symbol]
exists (the completing runs). -/
def executeCore (order : Order) (price : Rat) (now : Nat) (a : Demo)
    (oo : List Order) : Demo :=
  let quantity : Int := signedQty order
  let cash := a.cash - (quantity : Rat) * price
  let buyingPower := 2 * cash
  let posAct := executePositions order quantity price a.positions
  let positions := posAct.1
  let action := posAct.2
  let newTradeId := uniqueID a.nextId
  let protect : Option Protect := otoProtect order.oto
  let trades0 := ensureTrades a.trades order.symbol
  let tl := (trades0.find? order.symbol).getD []
  let stage := executeTrades order action quantity price now newTradeId protect trades0 tl oo
  let trades := stage.1
  let newTradeQ := stage.2.1
  let oo2 := removeFirstById order.id stage.2.2
  let fin := executeProtectOrders order action newTradeId newTradeQ protect
    (uniqueID (a.nextId + 1)) oo2
  let oo3 := fin.1
  let openOrders :=
    if oo3.isEmpty then a.openOrders.eraseKey order.symbol
    else a.openOrders.setKey order.symbol oo3
  { cash := cash, buyingPower := buyingPower, positions := positions,
    trades := trades, openOrders := openOrders,
    nextId := a.nextId + (if fin.2 then 2 else 1) }

/-- STX.Account.Demo.prototype.execute. price is the fill price; now stands
for new Date().getTime(). The body unconditionally reads
this.openOrders[order.symbol].length, so a call completes exactly when the
symbol has an open-order list; a missing list is the thrown-TypeError run,
returned as none. -/
def execute (order : Order) (price : Rat) (now : Nat) (a : Demo) : Option Demo :=
  match a.openOrders.find? order.symbol with
  | none => none
  | some oo => some (executeCore order price now a oo)

/-- What the engine passes to a completion callback: the Demo account
mutators invoke cb with no arguments; a brokerage reporting an error and the
assigned ids would use the second form. -/
inductive CbArg where
  | noArgs : CbArg
  | errWithIds : Option String → List String → CbArg
deriving DecidableEq

/-- Argument of placeOrder: a single order or a two-element OCO array. -/
inductive PlaceInput where
  | single : Order → PlaceInput
  | pair : Order → Order → PlaceInput
deriving DecidableEq

/-- The guard at the top of both placeOrder paths: create an empty
open-order list for the symbol when none exists. -/
def ensureOO (a : Demo) (symbol : String) : Demo :=
  match a.openOrders.find? symbol with
  | none => { a with openOrders := a.openOrders.setKey symbol [] }
  | some _ => a

/-- The array branch of placeOrder: ensure the book list of the first leg
symbol, assign both legs fresh ids, cross-link their oco fields and append
both under the first leg symbol. -/
def placePair (o0 o1 : Order) (a : Demo) : Demo :=
  let symbol := o0.symbol
  let a1 := ensureOO a symbol
  let id0 := uniqueID a.nextId
  let id1 := uniqueID (a.nextId + 1)
  let o0' := { o0 with id := some id0, oco := OcoRef.jid id1 }
  let o1' := { o1 with id := some id1, oco := OcoRef.jid id0 }
  let l := (a1.openOrders.find? symbol).getD []
  { a1 with openOrders := a1.openOrders.setKey symbol (l ++ [o0', o1']),
            nextId := a.nextId + 2 }

/-- The non-market single branch of placeOrder: assign the fresh id and
append the order to the book list of its symbol. -/
def placeResting (o : Order) (a : Demo) : Demo :=
  let a1 := ensureOO a o.symbol
  let oid := uniqueID a1.nextId
  let o' := { o with id := some oid }
  let l := (a1.openOrders.find? o.symbol).getD []
  { a1 with openOrders := a1.openOrders.setKey o.symbol (l ++ [o']),
            nextId := a1.nextId + 1 }

/-- The single-order branch of placeOrder: execute immediately when neither
limit nor stop is truthy, else append as a resting order. -/
def placeSingle (getPrice : String → Rat) (o : Order) (now : Nat) (a : Demo) :
    Option (Demo × CbArg) :=
  if !truthy o.limit && !truthy o.stop then
    (execute o (getPrice o.action) now (ensureOO a o.symbol)).map
      (fun d => (d, CbArg.noArgs))
  else some (placeResting o a, CbArg.noArgs)

/-- STX.Account.Demo.prototype.placeOrder. getPrice stands for the TFC
collaborator call tfc.getCurrentPriceForOrder(order.action). cb is always
invoked with no arguments. -/
def placeOrder (getPrice : String → Rat) (inp : PlaceInput) (now : Nat) (a : Demo) :
    Option (Demo × CbArg) :=
  match inp with
  | .pair o0 o1 => some (placePair o0 o1 a, CbArg.noArgs)
  | .single o => placeSingle getPrice o now a

/-! ## cancelOrder, replaceOrder, closePosition -/

/-- Loose equality of the cancel-target id against an oco field, as the
source compares order.id == openOrder.oco: an absent id equals null; a
string id equals a string oco by content; a string id equals the literal
true when ToNumber maps it to 1 (modelled for plain decimal strings; forms
such as a string with surrounding spaces are not reproduced, and no engine
id takes them). -/
def ocoMatches (targetId : Option String) (r : OcoRef) : Bool :=
  match targetId, r with
  | none, OcoRef.jnull => true
  | some a, OcoRef.jid b => a == b
  | some a, OcoRef.jtrue => a.toNat? == some 1
  | _, _ => false

/-- The protect-clearing step of cancelOrder at the first trade matching the
cancelled order tradeid: delete the stop leg if the cancelled order carries
a truthy stop, else the limit leg if it carries a truthy limit; then drop
the whole protect object when neither leg remains truthy. The source reads
trade.protect.stop unconditionally, so a matched trade without a protect
object is the thrown-TypeError run. -/
def cancelTradeUpd (o : Order) : List Trade → Option (List Trade)
  | [] => some []
  | tr :: rest =>
    if jsEqOptStr (some tr.id) o.tradeid then
      match tr.protect with
      | none => none
      | some p =>
        let p' := if truthy o.stop then { p with stop := none }
                  else if truthy o.limit then { p with limit := none }
                  else p
        let newProt := if !truthy p'.stop && !truthy p'.limit then none else some p'
        some ({ tr with protect := newProt } :: rest)
    else (cancelTradeUpd o rest).map (fun l => tr :: l)

/-- The guarded trade update run when cancelOrder removes a matched order:
nothing happens unless the order carries a truthy tradeid and the symbol
has a trade list (the source guard openOrder.tradeid && this.trades[symbol]);
otherwise the trade list goes through cancelTradeUpd, whose fault
propagates. -/
def cancelMatchTrades (o : Order) (trs : Option (List Trade)) :
    Option (Option (List Trade)) :=
  if truthyStr o.tradeid then
    match trs with
    | some tl => (cancelTradeUpd o tl).map some
    | none => some none
  else some trs

/-- Processing of one symbol entry of openOrders by cancelOrder: remove
every order matching the target id, updating the linked trade when the
removed order carries a truthy tradeid and the symbol has a trade list;
clear the oco field of orders referencing the target id; keep the rest. -/
def cancelSym (target : Order) :
    List Order → Option (List Trade) → Option (List Order × Option (List Trade))
  | [], trs => some ([], trs)
  | o :: rest, trs =>
    if jsEqOptStr target.id o.id then
      match cancelMatchTrades o trs with
      | none => none
      | some trs' => cancelSym target rest trs'
    else if ocoMatches target.id o.oco then
      (cancelSym target rest trs).map (fun r => ({ o with oco := OcoRef.jnull } :: r.1, r.2))
    else
      (cancelSym target rest trs).map (fun r => (o :: r.1, r.2))

/-- The outer for-in loop of cancelOrder over every symbol of openOrders,
threading the trades map through the per-symbol processing. -/
def cancelEntries (target : Order) :
    List (String × List Order) → SymMap (List Trade) →
    Option (List (String × List Order) × SymMap (List Trade))
  | [], trm => some ([], trm)
  | (s, l) :: rest, trm =>
    match cancelSym target l (trm.find? s) with
    | none => none
    | some (l', trOpt) =>
      let trm' :=
        match trOpt with
        | some tl => trm.setKey s tl
        | none => trm
      (cancelEntries target rest trm').map (fun r => ((s, l') :: r.1, r.2))

/-- STX.Account.Demo.prototype.cancelOrder; cb is invoked exactly on the
completing (some) runs. -/
def cancelOrder (target : Order) (a : Demo) : Option Demo :=
  (cancelEntries target a.openOrders a.trades).map
    (fun r => { a with openOrders := r.1, trades := r.2 })

/-- The replace payload handed to replaceOrder: the Demo implementation
reads only the new half of each field tuple. -/
structure RepOrder where
  id : Option String
  limitNew : Option Rat
  stopNew : Option Rat
  tifNew : String
  quantityNew : Int
  otoNew : Option (List OtoLeg)
deriving DecidableEq

/-- Field update applied in place to the matched open order by
replaceOrder: limit, stop, tif and quantity are overwritten; oto is
overwritten when a new oto is given, deleted otherwise. -/
def applyReplace (ro : RepOrder) (o : Order) : Order :=
  { o with limit := ro.limitNew, stop := ro.stopNew, tif := ro.tifNew,
           quantity := ro.quantityNew, oto := ro.otoNew }

/-- Find and update the first open order matching the replace id; none when
the list holds no match. -/
def replaceInList (ro : RepOrder) : List Order → Option (List Order × Order)
  | [] => none
  | o :: rest =>
    if jsEqOptStr ro.id o.id then
      let o' := applyReplace ro o
      some (o' :: rest, o')
    else (replaceInList ro rest).map (fun r => (o :: r.1, r.2))

/-- Trade protect refresh after a replace, at the first trade matching the
updated order tradeid: write the new stop into trade.protect if truthy,
else the new limit if truthy; writing into a missing protect object is the
thrown-TypeError run. -/
def replaceTradeUpd (o : Order) : List Trade → Option (List Trade)
  | [] => some []
  | tr :: rest =>
    if jsEqOptStr (some tr.id) o.tradeid then
      if truthy o.stop then
        match tr.protect with
        | none => none
        | some p => some ({ tr with protect := some { p with stop := o.stop } } :: rest)
      else if truthy o.limit then
        match tr.protect with
        | none => none
        | some p => some ({ tr with protect := some { p with limit := o.limit } } :: rest)
      else some (tr :: rest)
    else (replaceTradeUpd o rest).map (fun l => tr :: l)

/-- The outer for-in loop of replaceOrder: stop at the first symbol entry
holding a match, update it and that symbol trade list, report cb invoked
(true); if no entry matches, fall off the end without invoking cb. -/
def replaceEntries (ro : RepOrder) :
    List (String × List Order) → SymMap (List Trade) →
    Option (List (String × List Order) × SymMap (List Trade) × Bool)
  | [], trm => some ([], trm, false)
  | (s, l) :: rest, trm =>
    match replaceInList ro l with
    | none =>
      (replaceEntries ro rest trm).map (fun r => ((s, l) :: r.1, r.2.1, r.2.2))
    | some (l', o') =>
      let trmStep : Option (SymMap (List Trade)) :=
        if truthyStr o'.tradeid then
          match trm.find? s with
          | some tl => (replaceTradeUpd o' tl).map (fun tl' => trm.setKey s tl')
          | none => some trm
        else some trm
      trmStep.map (fun trm' => ((s, l') :: rest, trm', true))

/-- STX.Account.Demo.prototype.replaceOrder; the Bool reports whether cb
was invoked (the source calls cb only inside the match branch and simply
falls off the loop when no open order matches). -/
def replaceOrder (ro : RepOrder) (a : Demo) : Option (Demo × Bool) :=
  (replaceEntries ro a.openOrders a.trades).map
    (fun r => ({ a with openOrders := r.1, trades := r.2.1 }, r.2.2))

/-- STX.Account.Demo.prototype.closePosition, taking position.symbol. The
source reads this.trades[position.symbol].length unconditionally, so a
missing trade list is the thrown-TypeError run; otherwise every open order
referencing one of the symbol lots is removed, the symbol is deleted from
trades and positions, and cb is invoked. -/
def closePosition (symbol : String) (a : Demo) : Option Demo :=
  match a.trades.find? symbol with
  | none => none
  | some tl =>
    let oo' :=
      match a.openOrders.find? symbol with
      | none => a.openOrders
      | some l =>
        a.openOrders.setKey symbol
          (l.filter (fun o => !(tl.any (fun tr => jsEqOptStr o.tradeid (some tr.id)))))
    some { a with openOrders := oo',
                  trades := a.trades.eraseKey symbol,
                  positions := a.positions.eraseKey symbol }

/-! ## Sample records used by concrete witnesses and counterexamples -/

/-- A resting limit order, as in the demo seed data. -/
def restingOrder : Order :=
  { id := some "1", symbol := "IBM", action := "sell", quantity := 500,
    limit := some 197, stop := none, marketIfTouched := none, tif := "GTC",
    oco := OcoRef.jnull, tradeid := none, vspId := none, oto := none }

/-- An account whose book holds one resting order. -/
def acctOne : Demo :=
  { cash := 1000, buyingPower := 2000, positions := [], trades := [],
    openOrders := [("IBM", [restingOrder])], nextId := 0 }

/-- An account with empty maps. -/
def acctEmpty : Demo :=
  { cash := 1000, buyingPower := 2000, positions := [], trades := [],
    openOrders := [], nextId := 0 }

/-- A replace payload whose id matches no open order of acctOne. -/
def repUnknown : RepOrder :=
  { id := some "99", limitNew := some 200, stopNew := none, tifNew := "GTC",
    quantityNew := 500, otoNew := none }

/-- A single order carrying only a marketIfTouched price. -/
def mitOrder : Order :=
  { id := none, symbol := "GE", action := "buy", quantity := 2,
    limit := none, stop := none, marketIfTouched := some 5, tif := "DAY",
    oco := OcoRef.jnull, tradeid := none, vspId := none, oto := none }

/-- A single order carrying a limit price. -/
def limOrder : Order :=
  { id := none, symbol := "GE", action := "buy", quantity := 10,
    limit := some 170, stop := none, marketIfTouched := none, tif := "DAY",
    oco := OcoRef.jnull, tradeid := none, vspId := none, oto := none }

/-! ## C10: closePosition requires a trade list -/

/-- C10: closePosition completes exactly when trades[position.symbol]
exists; when the symbol has no entry in the trades map the body faults on
the undefined trade list instead of deleting the position and invoking
cb. -/
theorem closePosition_total_iff (symbol : String) (a : Demo) :
    (closePosition symbol a).isSome = (a.trades.find? symbol).isSome := by
  unfold closePosition
  cases h : a.trades.find? symbol with
  | none => simp
  | some tl => cases h2 : a.openOrders.find? symbol <;> simp [h2]

/-! ## C5: replaceOrder with an unknown id -/

theorem replaceInList_eq_none {ro : RepOrder} {l : List Order}
    (h : ∀ o ∈ l, jsEqOptStr ro.id o.id = false) : replaceInList ro l = none := by
  induction l with
  | nil => rfl
  | cons o rest ih =>
    have h0 := h o (List.mem_cons_self o rest)
    rw [replaceInList, h0]
    simp only [Bool.false_eq_true, if_false]
    rw [ih (fun x hx => h x (List.mem_cons_of_mem o hx))]
    rfl

theorem replaceEntries_no_match {ro : RepOrder} :
    ∀ (entries : List (String × List Order)) (trm : SymMap (List Trade)),
    (∀ p ∈ entries, ∀ o ∈ p.2, jsEqOptStr ro.id o.id = false) →
    replaceEntries ro entries trm = some (entries, trm, false) := by
  intro entries
  induction entries with
  | nil => intro trm _; rfl
  | cons p rest ih =>
    intro trm h
    have hnone : replaceInList ro p.2 = none :=
      replaceInList_eq_none (h p (List.mem_cons_self p rest))
    obtain ⟨s, l⟩ := p
    rw [replaceEntries, hnone]
    rw [ih trm (fun q hq => h q (List.mem_cons_of_mem _ hq))]
    rfl

/-- C5 (amended): a replace order whose id matches no open order of any
symbol leaves the whole account state unchanged, and the callback cb is
never invoked (the source returns only from inside the match branch and
falls off the loop otherwise). -/
theorem replaceOrder_unknown_id (ro : RepOrder) (a : Demo)
    (h : ∀ p ∈ a.openOrders, ∀ o ∈ p.2, jsEqOptStr ro.id o.id = false) :
    replaceOrder ro a = some (a, false) := by
  unfold replaceOrder
  rw [replaceEntries_no_match a.openOrders a.trades h]
  rfl

/-- C5 witness: the general no-match theorem applied to a concrete account
and a replace id absent from its book. -/
theorem replaceOrder_unknown_id_witness :
    replaceOrder repUnknown acctOne = some (acctOne, false) :=
  replaceOrder_unknown_id repUnknown acctOne (by decide)

/-- C5 counterexample: the claim says cb is still invoked on a not-found
replace; on a concrete account the callback flag of the completing run is
false, so cb is never called. -/
theorem replaceOrder_notfound_skips_cb :
    (replaceOrder repUnknown acctOne).map Prod.snd = some false := by decide

/-! ## C6: what placeOrder passes to its callback -/

/-- C6 (amended): every completing placeOrder run invokes the callback with
no arguments at all; neither an error value nor the freshly assigned ids
are reported back. -/
theorem placeOrder_cb_no_arguments (getPrice : String → Rat) (inp : PlaceInput)
    (now : Nat) (a : Demo) :
    (placeOrder getPrice inp now a).map Prod.snd = some CbArg.noArgs ∨
    placeOrder getPrice inp now a = none := by
  cases inp with
  | pair o0 o1 => left; rfl
  | single o =>
    show (placeSingle getPrice o now a).map Prod.snd = some CbArg.noArgs ∨
      placeSingle getPrice o now a = none
    unfold placeSingle
    cases hc : (!truthy o.limit && !truthy o.stop) with
    | true =>
      cases hx : execute o (getPrice o.action) now (ensureOO a o.symbol) with
      | none => right; simp [hx]
      | some d => left; simp [hx]
    | false =>
      left; rfl

/-- C6 counterexample: the claim says the callback receives (err, a record
carrying the assigned id); the concrete completing run passes no arguments,
in particular not the record carrying the freshly assigned id. -/
theorem placeOrder_reports_no_id :
    (placeOrder (fun _ => (5 : Rat)) (PlaceInput.single limOrder) 0 acctEmpty).map Prod.snd
      = some CbArg.noArgs ∧
    (placeOrder (fun _ => (5 : Rat)) (PlaceInput.single limOrder) 0 acctEmpty).map Prod.snd
      ≠ some (CbArg.errWithIds none [uniqueID acctEmpty.nextId]) := by
  constructor
  · decide
  · decide

/-! ## C2: which single orders execute immediately -/

theorem ensureOO_find? (a : Demo) (s : String) :
    (ensureOO a s).openOrders.find? s = some ((a.openOrders.find? s).getD []) := by
  unfold ensureOO
  cases h : a.openOrders.find? s with
  | none => simpa using SymMap.find?_setKey_self a.openOrders s []
  | some l => simpa using h

theorem ensureOO_nextId (a : Demo) (s : String) : (ensureOO a s).nextId = a.nextId := by
  unfold ensureOO
  cases h : a.openOrders.find? s <;> rfl

/-- C2 (amended): a single order executes immediately exactly when it
carries neither a truthy limit nor a truthy stop price; a marketIfTouched
price does not prevent immediate execution. Every other single order is
assigned the fresh counter id and appended to openOrders of its symbol,
leaving positions, trades and balances untouched. -/
theorem placeOrder_market_iff_no_limit_stop (getPrice : String → Rat) (o : Order)
    (now : Nat) (a : Demo) :
    (truthy o.limit = false ∧ truthy o.stop = false →
      placeOrder getPrice (PlaceInput.single o) now a =
        (execute o (getPrice o.action) now (ensureOO a o.symbol)).map
          (fun d => (d, CbArg.noArgs)))
    ∧ ((truthy o.limit = true ∨ truthy o.stop = true) →
      ∃ l, (ensureOO a o.symbol).openOrders.find? o.symbol = some l ∧
        placeOrder getPrice (PlaceInput.single o) now a =
          some ({ ensureOO a o.symbol with
                  openOrders := (ensureOO a o.symbol).openOrders.setKey o.symbol
                    (l ++ [{ o with id := some (uniqueID a.nextId) }]),
                  nextId := a.nextId + 1 }, CbArg.noArgs)) := by
  constructor
  · intro h
    have hc : (!truthy o.limit && !truthy o.stop) = true := by rw [h.1, h.2]; rfl
    show placeSingle getPrice o now a = _
    unfold placeSingle
    rw [hc]
    rfl
  · intro h
    refine ⟨(a.openOrders.find? o.symbol).getD [], ensureOO_find? a o.symbol, ?_⟩
    have hc : (!truthy o.limit && !truthy o.stop) = false := by
      rcases h with h | h <;> rw [h] <;> simp
    show placeSingle getPrice o now a = _
    unfold placeSingle
    rw [hc]
    show some (placeResting o a, CbArg.noArgs) = _
    unfold placeResting
    simp only [ensureOO_find?, ensureOO_nextId, Option.getD_some]

/-- C2 witness: the market branch of the dichotomy applied to an order
carrying only a marketIfTouched price. -/
theorem placeOrder_market_iff_no_limit_stop_witness :
    placeOrder (fun _ => (5 : Rat)) (PlaceInput.single mitOrder) 0 acctEmpty =
      (execute mitOrder ((fun _ => (5 : Rat)) mitOrder.action) 0
        (ensureOO acctEmpty mitOrder.symbol)).map (fun d => (d, CbArg.noArgs)) :=
  (placeOrder_market_iff_no_limit_stop (fun _ => (5 : Rat)) mitOrder 0 acctEmpty).1
    ⟨rfl, rfl⟩

/-- C2 counterexample: the claim says an order carrying only a
marketIfTouched price is appended to openOrders instead of executing; on a
concrete account such an order is executed immediately: the position and
trade appear and the book stays empty, holding no order at all (the cash
components, which do not affect the refutation, are left unstated because
rational arithmetic is evaluated separately). -/
theorem placeOrder_mit_executes_immediately :
    (placeOrder (fun _ => (5 : Rat)) (PlaceInput.single mitOrder) 0 acctEmpty).map
        (fun r => r.1.openOrders) = some [] ∧
    (placeOrder (fun _ => (5 : Rat)) (PlaceInput.single mitOrder) 0 acctEmpty).map
        (fun r => r.1.positions) =
      some [("GE", { quantity := 2, basis := 5, price := 5, prevClose := 5 })] ∧
    (placeOrder (fun _ => (5 : Rat)) (PlaceInput.single mitOrder) 0 acctEmpty).map
        (fun r => r.1.trades) =
      some [("GE", [{ id := uniqueID 0, time := 0, quantity := 2,
                      basis := 5, price := 5, protect := none }])] := by
  refine ⟨by decide, by decide, by decide⟩

/-! ## C7: weighted basis after two same-direction buys -/

theorem executeCore_positions (order : Order) (price : Rat) (now : Nat) (a : Demo)
    (oo : List Order) :
    (executeCore order price now a oo).positions =
      (executePositions order
        (if order.action == "sell" || order.action == "short" then -order.quantity
         else order.quantity) price a.positions).1 := rfl

theorem executePositions_flat (order : Order) (q : Int) (price : Rat)
    (pmap : SymMap Position) (h : pmap.find? order.symbol = none) :
    (executePositions order q price pmap).1 =
      pmap.setKey order.symbol
        { quantity := q, basis := price, price := price, prevClose := price } := by
  unfold executePositions
  rw [h]

theorem executePositions_buy_open (order : Order) (q : Int) (price : Rat)
    (pmap : SymMap Position) (pos : Position)
    (h : pmap.find? order.symbol = some pos) (hact : order.action = "buy")
    (hpos : 0 ≤ pos.quantity) (hne : pos.quantity + q ≠ 0) :
    (executePositions order q price pmap).1 =
      pmap.setKey order.symbol
        { quantity := pos.quantity + q,
          basis := toFixed2 (((pos.quantity : Rat) * pos.basis + (q : Rat) * price)
            / ((pos.quantity : Rat) + (q : Rat))),
          price := price, prevClose := pos.prevClose } := by
  unfold executePositions
  rw [h]
  simp only [hact, not_lt.mpr hpos, if_neg (by omega : ¬ pos.quantity < 0)]
  have hbeq : (pos.quantity + q == 0) = false := by
    simp only [beq_eq_false_iff_ne, ne_eq]
    exact hne
  simp [hbeq]

/-- C7: starting flat, a buy of q1 at p1 then a buy of q2 at p2 (both
positive) leaves the position with quantity q1+q2 and basis equal to
(q1 p1 + q2 p2)/(q1+q2) rounded to two decimals. -/
theorem execute_weighted_basis
    (o1 o2 : Order) (p1 p2 : Rat) (t1 t2 : Nat) (a a1 a2 : Demo)
    (hsym : o2.symbol = o1.symbol)
    (ha1 : o1.action = "buy") (ha2 : o2.action = "buy")
    (hq1 : 0 < o1.quantity) (hq2 : 0 < o2.quantity)
    (hflat : a.positions.find? o1.symbol = none)
    (h1 : execute o1 p1 t1 a = some a1)
    (h2 : execute o2 p2 t2 a1 = some a2) :
    ∃ pos, a2.positions.find? o1.symbol = some pos ∧
      pos.basis = toFixed2 (((o1.quantity : Rat) * p1 + (o2.quantity : Rat) * p2)
        / ((o1.quantity : Rat) + (o2.quantity : Rat))) ∧
      pos.quantity = o1.quantity + o2.quantity := by
  unfold execute at h1 h2
  rcases hoo1 : a.openOrders.find? o1.symbol with _ | oo1
  · rw [hoo1] at h1; exact absurd h1 (by simp)
  rcases hoo2 : a1.openOrders.find? o2.symbol with _ | oo2
  · rw [hoo2] at h2; exact absurd h2 (by simp)
  rw [hoo1] at h1
  rw [hoo2] at h2
  have ha1' : a1 = executeCore o1 p1 t1 a oo1 := by
    injection h1 with h; exact h.symm
  have ha2' : a2 = executeCore o2 p2 t2 a1 oo2 := by
    injection h2 with h; exact h.symm
  have hsq1 : (if o1.action == "sell" || o1.action == "short" then -o1.quantity
      else o1.quantity) = o1.quantity := by rw [ha1]; rfl
  have hsq2 : (if o2.action == "sell" || o2.action == "short" then -o2.quantity
      else o2.quantity) = o2.quantity := by rw [ha2]; rfl
  have hp1 : a1.positions = a.positions.setKey o1.symbol
      { quantity := o1.quantity, basis := p1, price := p1, prevClose := p1 } := by
    rw [ha1', executeCore_positions, hsq1, executePositions_flat o1 o1.quantity p1 a.positions hflat]
  have hfind1 : a1.positions.find? o1.symbol =
      some { quantity := o1.quantity, basis := p1, price := p1, prevClose := p1 } := by
    rw [hp1]; exact SymMap.find?_setKey_self _ _ _
  have hfind1' : a1.positions.find? o2.symbol =
      some { quantity := o1.quantity, basis := p1, price := p1, prevClose := p1 } := by
    rw [hsym]; exact hfind1
  have hp2 : a2.positions = a1.positions.setKey o2.symbol
      { quantity := o1.quantity + o2.quantity,
        basis := toFixed2 (((o1.quantity : Rat) * p1 + (o2.quantity : Rat) * p2)
          / ((o1.quantity : Rat) + (o2.quantity : Rat))),
        price := p2, prevClose := p1 } := by
    rw [ha2', executeCore_positions, hsq2,
      executePositions_buy_open o2 o2.quantity p2 a1.positions _ hfind1' ha2
        (by simp; omega) (by simp; omega)]
  refine ⟨{ quantity := o1.quantity + o2.quantity,
            basis := toFixed2 (((o1.quantity : Rat) * p1 + (o2.quantity : Rat) * p2)
              / ((o1.quantity : Rat) + (o2.quantity : Rat))),
            price := p2, prevClose := p1 }, ?_, rfl, rfl⟩
  rw [hp2, ← hsym]
  exact SymMap.find?_setKey_self _ _ _

/-- A resting order keeping the GE book non-empty across the two fills of
the weighted-basis witness run. -/
def c7Dummy : Order :=
  { id := some "z", symbol := "GE", action := "sell", quantity := 1,
    limit := some 100, stop := none, marketIfTouched := none, tif := "GTC",
    oco := OcoRef.jnull, tradeid := none, vspId := none, oto := none }

/-- A market buy of one GE share. -/
def c7Buy : Order :=
  { id := none, symbol := "GE", action := "buy", quantity := 1,
    limit := none, stop := none, marketIfTouched := none, tif := "DAY",
    oco := OcoRef.jnull, tradeid := none, vspId := none, oto := none }

/-- Account state for the weighted-basis witness run. -/
def acct7 : Demo :=
  { cash := 0, buyingPower := 0, positions := [], trades := [],
    openOrders := [("GE", [c7Dummy])], nextId := 0 }

/-- State after the first buy of the witness run. -/
def c7a1 : Demo := executeCore c7Buy 4 0 acct7 [c7Dummy]

/-- State after the second buy of the witness run. -/
def c7a2 : Demo := executeCore c7Buy 5 1 c7a1 [c7Dummy]

/-- C7 witness: the weighted-basis theorem applied to two concrete one-share
buys at 4 and 5. -/
theorem execute_weighted_basis_witness :
    ∃ pos, c7a2.positions.find? c7Buy.symbol = some pos ∧
      pos.basis = toFixed2 (((c7Buy.quantity : Rat) * 4 + (c7Buy.quantity : Rat) * 5)
        / ((c7Buy.quantity : Rat) + (c7Buy.quantity : Rat))) ∧
      pos.quantity = c7Buy.quantity + c7Buy.quantity :=
  execute_weighted_basis c7Buy c7Buy 4 5 0 1 acct7 c7a1 c7a2 rfl rfl rfl
    (by decide) (by decide) rfl rfl rfl

/-! ## C1: the basis invariant -/

/-- Signed sum of the quantities of a lot list. -/
def sumQ (tl : List Trade) : Int := (tl.map (fun t => t.quantity)).sum

/-- Position quantity of a symbol, read as 0 when no position exists. -/
def posQty (a : Demo) (s : String) : Int :=
  match a.positions.find? s with
  | some p => p.quantity
  | none => 0

/-- Signed sum of the trade quantities of a symbol, read as 0 when no trade
list exists. -/
def tradesSumOf (a : Demo) (s : String) : Int := sumQ ((a.trades.find? s).getD [])

theorem sumQ_nil : sumQ [] = 0 := rfl

theorem sumQ_cons (t : Trade) (tl : List Trade) :
    sumQ (t :: tl) = t.quantity + sumQ tl := by simp [sumQ]

theorem sumQ_append (l1 l2 : List Trade) :
    sumQ (l1 ++ l2) = sumQ l1 + sumQ l2 := by simp [sumQ]

theorem consumeLots_sum (vsp : Option String) :
    ∀ (tl : List Trade) (qty : Int) (oo : List Order),
      sumQ (consumeLots vsp tl qty oo).1 =
        sumQ tl - (qty - (consumeLots vsp tl qty oo).2.1) := by
  intro tl
  induction tl with
  | nil => intro qty oo; simp [consumeLots, sumQ]
  | cons tr rest ih =>
    intro qty oo
    rw [consumeLots]
    split
    · dsimp only
      rw [sumQ_cons, sumQ_cons]
      have h := ih qty oo
      omega
    · split
      · dsimp only
        rw [sumQ_cons]
        have h := ih (qty - tr.quantity)
          (if tr.protect.isSome = true then
            List.filter (fun o => !jsEqOptStr o.tradeid (some tr.id)) oo else oo)
        omega
      · dsimp only
        rw [sumQ_cons, sumQ_cons]
        dsimp only
        omega

theorem executePositions_qty_self (order : Order) (q : Int) (price : Rat)
    (pmap : SymMap Position) :
    (match (executePositions order q price pmap).1.find? order.symbol with
     | some p => p.quantity | none => 0)
    = (match pmap.find? order.symbol with | some p => p.quantity | none => 0) + q := by
  unfold executePositions
  cases h : pmap.find? order.symbol with
  | none =>
    rw [SymMap.find?_setKey_self]
    simp
  | some pos =>
    by_cases hz : (pos.quantity + q == 0) = true
    · have hz' : pos.quantity + q = 0 := by simpa using hz
      simp only [hz, if_true, SymMap.find?_eraseKey_self]
      omega
    · simp only [hz, Bool.false_eq_true, if_false, SymMap.find?_setKey_self]

theorem executePositions_find?_other (order : Order) (q : Int) (price : Rat)
    (pmap : SymMap Position) (s : String) (hs : s ≠ order.symbol) :
    (executePositions order q price pmap).1.find? s = pmap.find? s := by
  have hs' : order.symbol ≠ s := fun h => hs h.symm
  unfold executePositions
  cases h : pmap.find? order.symbol with
  | none => exact SymMap.find?_setKey_ne _ _ _ _ hs'
  | some pos =>
    by_cases hz : (pos.quantity + q == 0) = true
    · simp only [hz, if_true]
      exact SymMap.find?_eraseKey_ne _ _ _ hs'
    · simp only [hz, Bool.false_eq_true, if_false]
      exact SymMap.find?_setKey_ne _ _ _ _ hs'

theorem ensureTrades_find?_self (m : SymMap (List Trade)) (sym : String) :
    (ensureTrades m sym).find? sym = some ((m.find? sym).getD []) := by
  unfold ensureTrades
  cases h : m.find? sym with
  | none => rw [SymMap.find?_setKey_self]; rfl
  | some tl => rw [h]; rfl

theorem ensureTrades_find?_other (m : SymMap (List Trade)) (sym s : String)
    (hs : s ≠ sym) : (ensureTrades m sym).find? s = m.find? s := by
  unfold ensureTrades
  cases h : m.find? sym with
  | none => exact SymMap.find?_setKey_ne _ _ _ _ (fun hh => hs hh.symm)
  | some tl => rfl

theorem executeCore_positions_sq (order : Order) (price : Rat) (now : Nat) (a : Demo)
    (oo : List Order) :
    (executeCore order price now a oo).positions =
      (executePositions order (signedQty order) price a.positions).1 := rfl

theorem executeCore_trades_sq (order : Order) (price : Rat) (now : Nat) (a : Demo)
    (oo : List Order) :
    (executeCore order price now a oo).trades =
      (executeTrades order (executePositions order (signedQty order) price a.positions).2
        (signedQty order) price now (uniqueID a.nextId) (otoProtect order.oto)
        (ensureTrades a.trades order.symbol)
        (((ensureTrades a.trades order.symbol).find? order.symbol).getD []) oo).1 := rfl

theorem executeTrades_sum_self (order : Order) (action : String) (q : Int)
    (price : Rat) (now : Nat) (nid : String) (protect : Option Protect)
    (trades0 : SymMap (List Trade)) (tl : List Trade) (oo : List Order) :
    sumQ (((executeTrades order action q price now nid protect trades0 tl oo).1.find?
      order.symbol).getD []) = sumQ tl + q := by
  unfold executeTrades
  split
  · rw [SymMap.find?_setKey_self]
    simp [sumQ_append, sumQ_cons, sumQ_nil]
  · dsimp only
    have hsum := consumeLots_sum order.vspId tl (-q) oo
    by_cases hz : ((consumeLots order.vspId tl (-q) oo).2.1 == 0) = true
    · have hz' : (consumeLots order.vspId tl (-q) oo).2.1 = 0 := by simpa using hz
      simp only [hz, if_true]
      by_cases he : (consumeLots order.vspId tl (-q) oo).1.isEmpty = true
      · have he' : (consumeLots order.vspId tl (-q) oo).1 = [] := by
          simpa [List.isEmpty_iff] using he
        simp only [he, if_true, SymMap.find?_eraseKey_self]
        rw [he'] at hsum
        simp only [sumQ_nil] at hsum
        simp only [Option.getD_none, sumQ_nil]
        omega
      · simp only [he, Bool.false_eq_true, if_false, SymMap.find?_setKey_self]
        simp only [Option.getD_some]
        omega
    · simp only [hz, Bool.false_eq_true, if_false, SymMap.find?_setKey_self]
      simp only [Option.getD_some]
      rw [sumQ_append, sumQ_cons]
      simp only [sumQ_nil]
      omega

theorem executeTrades_find?_other (order : Order) (action : String) (q : Int)
    (price : Rat) (now : Nat) (nid : String) (protect : Option Protect)
    (trades0 : SymMap (List Trade)) (tl : List Trade) (oo : List Order)
    (s : String) (hs : s ≠ order.symbol) :
    (executeTrades order action q price now nid protect trades0 tl oo).1.find? s =
      trades0.find? s := by
  have hs' : order.symbol ≠ s := fun h => hs h.symm
  unfold executeTrades
  split
  · exact SymMap.find?_setKey_ne _ _ _ _ hs'
  · dsimp only
    split
    · split
      · exact SymMap.find?_eraseKey_ne _ _ _ hs'
      · exact SymMap.find?_setKey_ne _ _ _ _ hs'
    · exact SymMap.find?_setKey_ne _ _ _ _ hs'

/-- C1: execute preserves the basis invariant: if, for every symbol, the
position quantity (0 when absent) equals the signed sum of the trade
quantities (0 when absent), then the same holds after any completing
execute call. -/
theorem execute_preserves_basis_invariant (order : Order) (price : Rat) (now : Nat)
    (a a' : Demo) (hinv : ∀ s, posQty a s = tradesSumOf a s)
    (h : execute order price now a = some a') :
    ∀ s, posQty a' s = tradesSumOf a' s := by
  unfold execute at h
  rcases hoo : a.openOrders.find? order.symbol with _ | oo
  · rw [hoo] at h; cases h
  rw [hoo] at h
  have ha' : a' = executeCore order price now a oo := by
    injection h with h'; exact h'.symm
  subst ha'
  intro s
  by_cases hs : s = order.symbol
  · rw [hs]
    have hpos : posQty (executeCore order price now a oo) order.symbol =
        posQty a order.symbol + signedQty order := by
      unfold posQty
      rw [executeCore_positions_sq]
      exact executePositions_qty_self order (signedQty order) price a.positions
    have htr : tradesSumOf (executeCore order price now a oo) order.symbol =
        tradesSumOf a order.symbol + signedQty order := by
      unfold tradesSumOf
      rw [executeCore_trades_sq, executeTrades_sum_self, ensureTrades_find?_self]
      rfl
    rw [hpos, htr, hinv order.symbol]
  · have hpos : posQty (executeCore order price now a oo) s = posQty a s := by
      unfold posQty
      rw [executeCore_positions_sq,
        executePositions_find?_other order (signedQty order) price a.positions s hs]
    have htr : tradesSumOf (executeCore order price now a oo) s = tradesSumOf a s := by
      unfold tradesSumOf
      rw [executeCore_trades_sq,
        executeTrades_find?_other _ _ _ _ _ _ _ _ _ _ s hs,
        ensureTrades_find?_other _ _ s hs]
    rw [hpos, htr, hinv s]

/-- C1 witness: the invariant-preservation theorem applied to a concrete
buy on an account with empty positions and trades. -/
theorem execute_preserves_basis_invariant_witness :
    posQty c7a1 "GE" = tradesSumOf c7a1 "GE" :=
  execute_preserves_basis_invariant c7Buy 4 0 acct7 c7a1 (fun _ => rfl) rfl "GE"

/-! ## C4: zero-quantity cleanup -/

theorem signedQty_ne_zero (order : Order) (hq : order.quantity ≠ 0) :
    signedQty order ≠ 0 := by
  unfold signedQty
  split <;> omega

theorem executePositions_qty_ne_zero (order : Order) (q : Int) (price : Rat)
    (pmap : SymMap Position) (hq : q ≠ 0) :
    ∀ pos, (executePositions order q price pmap).1.find? order.symbol = some pos →
      pos.quantity ≠ 0 := by
  intro pos hpos
  unfold executePositions at hpos
  rcases h : pmap.find? order.symbol with _ | p
  · rw [h] at hpos
    dsimp only at hpos
    rw [SymMap.find?_setKey_self] at hpos
    injection hpos with h'
    rw [← h']
    exact hq
  · rw [h] at hpos
    dsimp only at hpos
    by_cases hz : (p.quantity + q == 0) = true
    · rw [if_pos hz, SymMap.find?_eraseKey_self] at hpos
      cases hpos
    · rw [if_neg hz, SymMap.find?_setKey_self] at hpos
      injection hpos with h'
      rw [← h']
      simpa using hz

theorem consumeLots_nonzero (vsp : Option String) :
    ∀ (tl : List Trade) (qty : Int) (oo : List Order),
      (∀ tr ∈ tl, tr.quantity ≠ 0) →
      ∀ tr ∈ (consumeLots vsp tl qty oo).1, tr.quantity ≠ 0 := by
  intro tl
  induction tl with
  | nil => intro qty oo _ tr htr; simp [consumeLots] at htr
  | cons t rest ih =>
    intro qty oo h tr htr
    rw [consumeLots] at htr
    split at htr
    · dsimp only at htr
      rcases List.mem_cons.mp htr with h1 | h1
      · rw [h1]; exact h t (List.mem_cons_self t rest)
      · exact ih qty oo (fun x hx => h x (List.mem_cons_of_mem t hx)) tr h1
    · split at htr
      · exact ih _ _ (fun x hx => h x (List.mem_cons_of_mem t hx)) tr htr
      · dsimp only at htr
        rcases List.mem_cons.mp htr with h1 | h1
        · rw [h1]
          dsimp only
          rename_i hvsp habs
          omega
        · exact h tr (List.mem_cons_of_mem t h1)

theorem executeTrades_nonzero (order : Order) (action : String) (q : Int)
    (price : Rat) (now : Nat) (nid : String) (protect : Option Protect)
    (trades0 : SymMap (List Trade)) (tl : List Trade) (oo : List Order)
    (hq : q ≠ 0) (htl : ∀ tr ∈ tl, tr.quantity ≠ 0) :
    ∀ tr ∈ (((executeTrades order action q price now nid protect trades0 tl oo).1.find?
      order.symbol).getD []), tr.quantity ≠ 0 := by
  intro tr htr
  unfold executeTrades at htr
  split at htr
  · rw [SymMap.find?_setKey_self] at htr
    simp only [Option.getD_some] at htr
    rcases List.mem_append.mp htr with h1 | h1
    · exact htl tr h1
    · rcases List.mem_singleton.mp h1 with h2
      rw [h2]
      exact hq
  · dsimp only at htr
    have hcons := consumeLots_nonzero order.vspId tl (-q) oo htl
    split at htr
    · split at htr
      · rw [SymMap.find?_eraseKey_self] at htr
        exact absurd htr (List.not_mem_nil tr)
      · rw [SymMap.find?_setKey_self] at htr
        simp only [Option.getD_some] at htr
        exact hcons tr htr
    · rw [SymMap.find?_setKey_self] at htr
      simp only [Option.getD_some] at htr
      rcases List.mem_append.mp htr with h1 | h1
      · exact hcons tr h1
      · rcases List.mem_singleton.mp h1 with h2
        rw [h2]
        dsimp only
        rename_i hz
        have hz' : (consumeLots order.vspId tl (-q) oo).2.1 ≠ 0 := by simpa using hz
        omega

/-- C4: when the fill quantity is nonzero and the symbol carries no
zero-quantity lots beforehand, a completing execute leaves no position of
exactly zero quantity for the symbol (the position entry is deleted
instead) and no trade of zero quantity in the symbol lot list (a fully
consumed lot is removed, a partially consumed lot stays strictly away from
zero). -/
theorem execute_zero_cleanup (order : Order) (price : Rat) (now : Nat)
    (a a' : Demo) (hq : order.quantity ≠ 0)
    (htz : ∀ tr ∈ (a.trades.find? order.symbol).getD [], tr.quantity ≠ 0)
    (h : execute order price now a = some a') :
    (∀ pos, a'.positions.find? order.symbol = some pos → pos.quantity ≠ 0) ∧
    (∀ tr ∈ (a'.trades.find? order.symbol).getD [], tr.quantity ≠ 0) := by
  unfold execute at h
  rcases hoo : a.openOrders.find? order.symbol with _ | oo
  · rw [hoo] at h; cases h
  rw [hoo] at h
  have ha' : a' = executeCore order price now a oo := by
    injection h with h'; exact h'.symm
  subst ha'
  have hsq : signedQty order ≠ 0 := signedQty_ne_zero order hq
  constructor
  · rw [executeCore_positions_sq]
    exact executePositions_qty_ne_zero order (signedQty order) price a.positions hsq
  · rw [executeCore_trades_sq]
    refine executeTrades_nonzero _ _ _ _ _ _ _ _ _ _ hsq ?_
    rw [ensureTrades_find?_self]
    simpa using htz

/-- C4 witness: the cleanup theorem applied to a concrete one-share buy on
an account with empty positions and trades. -/
theorem execute_zero_cleanup_witness :
    (∀ pos, c7a1.positions.find? c7Buy.symbol = some pos → pos.quantity ≠ 0) ∧
    (∀ tr ∈ (c7a1.trades.find? c7Buy.symbol).getD [], tr.quantity ≠ 0) :=
  execute_zero_cleanup c7Buy 4 0 acct7 c7a1 (by decide)
    (fun tr htr => absurd htr (List.not_mem_nil tr)) rfl

/-! ## Decomposition of the cancel loop

The per-symbol processing of cancelOrder produces its open-order list
independently of the trades thread; splitting the two makes the loop
tractable: cancelSym is the pairing of cancelList (the pure list
transformation) with cancelSymTr (the trades thread). -/

/-- The open-order transformation of one symbol list under a cancel: orders
matching the target id are dropped, oco references to the target id are
nulled, all other orders are kept in place. -/
def cancelList (target : Order) : List Order → List Order
  | [] => []
  | o :: rest =>
    if jsEqOptStr target.id o.id then cancelList target rest
    else if ocoMatches target.id o.oco then
      { o with oco := OcoRef.jnull } :: cancelList target rest
    else o :: cancelList target rest

/-- The trades thread of the per-symbol cancel processing. -/
def cancelSymTr (target : Order) :
    List Order → Option (List Trade) → Option (Option (List Trade))
  | [], trs => some trs
  | o :: rest, trs =>
    if jsEqOptStr target.id o.id then
      (cancelMatchTrades o trs).bind (cancelSymTr target rest)
    else cancelSymTr target rest trs

/-- The trades thread of the whole cancel loop over all symbols. -/
def cancelEntriesTr (target : Order) :
    List (String × List Order) → SymMap (List Trade) → Option (SymMap (List Trade))
  | [], trm => some trm
  | (s, l) :: rest, trm =>
    match cancelSymTr target l (trm.find? s) with
    | none => none
    | some trOpt =>
      let trm' :=
        match trOpt with
        | some tl => trm.setKey s tl
        | none => trm
      cancelEntriesTr target rest trm'

theorem cancelSym_eq (target : Order) :
    ∀ (l : List Order) (trs : Option (List Trade)),
      cancelSym target l trs =
        (cancelSymTr target l trs).map (fun t => (cancelList target l, t)) := by
  intro l
  induction l with
  | nil => intro trs; rfl
  | cons o rest ih =>
    intro trs
    rw [cancelSym, cancelSymTr, cancelList]
    by_cases hm : jsEqOptStr target.id o.id
    · rw [if_pos hm, if_pos hm, if_pos hm]
      cases hc : cancelMatchTrades o trs with
      | none => rfl
      | some trs' => simp [ih trs']
    · rw [if_neg hm, if_neg hm, if_neg hm]
      by_cases ho : ocoMatches target.id o.oco
      · rw [if_pos ho, if_pos ho]
        cases hc : cancelSymTr target rest trs with
        | none => simp [ih trs, hc]
        | some t => simp [ih trs, hc]
      · rw [if_neg ho, if_neg ho]
        cases hc : cancelSymTr target rest trs with
        | none => simp [ih trs, hc]
        | some t => simp [ih trs, hc]

theorem cancelEntries_eq (target : Order) :
    ∀ (entries : List (String × List Order)) (trm : SymMap (List Trade)),
      cancelEntries target entries trm =
        (cancelEntriesTr target entries trm).map
          (fun t => (entries.map (fun p => (p.1, cancelList target p.2)), t)) := by
  intro entries
  induction entries with
  | nil => intro trm; rfl
  | cons p rest ih =>
    intro trm
    obtain ⟨s, l⟩ := p
    rw [cancelEntries, cancelEntriesTr, cancelSym_eq]
    cases hc : cancelSymTr target l (trm.find? s) with
    | none => rfl
    | some trOpt =>
      simp only [Option.map_some']
      cases trOpt with
      | none =>
        rw [ih trm]
        cases cancelEntriesTr target rest trm <;> rfl
      | some tl =>
        rw [ih (trm.setKey s tl)]
        cases cancelEntriesTr target rest (trm.setKey s tl) <;> rfl

theorem SymMap.find?_setKey_eq {α : Type} (m : SymMap α) (k k' : String) (v : α) :
    (m.setKey k v).find? k' = if k = k' then some v else m.find? k' := by
  by_cases h : k = k'
  · rw [if_pos h, ← h]; exact SymMap.find?_setKey_self m k v
  · rw [if_neg h]; exact SymMap.find?_setKey_ne m k k' v h

theorem find?_map_values {α β : Type} (g : α → β) :
    ∀ (m : List (String × α)) (s : String),
      SymMap.find? (m.map (fun p => (p.1, g p.2))) s = (SymMap.find? m s).map g := by
  intro m
  induction m with
  | nil => intro s; rfl
  | cons p rest ih =>
    intro s
    rw [List.map_cons]
    show (if p.1 == s then some (g p.2) else _) = _
    by_cases h : p.1 == s
    · rw [if_pos h]
      show _ = (if p.1 == s then some p.2 else SymMap.find? rest s).map g
      rw [if_pos h]
      rfl
    · rw [if_neg h]
      show _ = (if p.1 == s then some p.2 else SymMap.find? rest s).map g
      rw [if_neg h]
      exact ih s

theorem cancelList_eq_filterMap (target : Order) :
    ∀ l : List Order,
      cancelList target l = l.filterMap (fun o =>
        if jsEqOptStr target.id o.id then none
        else if ocoMatches target.id o.oco then some { o with oco := OcoRef.jnull }
        else some o) := by
  intro l
  induction l with
  | nil => rfl
  | cons o rest ih =>
    rw [cancelList, List.filterMap_cons]
    by_cases hm : jsEqOptStr target.id o.id
    · rw [if_pos hm]
      simp only [hm, if_true]
      exact ih
    · rw [if_neg hm]
      simp only [hm, Bool.false_eq_true, if_false]
      by_cases ho : ocoMatches target.id o.oco
      · simp only [if_pos ho, ih]
      · simp only [if_neg ho, ih]

theorem cancelSymTr_no_match (target : Order) :
    ∀ (l : List Order) (trs : Option (List Trade)),
      (∀ o ∈ l, jsEqOptStr target.id o.id = false) →
      cancelSymTr target l trs = some trs := by
  intro l
  induction l with
  | nil => intro trs _; rfl
  | cons o rest ih =>
    intro trs h
    rw [cancelSymTr, h o (List.mem_cons_self o rest)]
    simp only [Bool.false_eq_true, if_false]
    exact ih trs (fun x hx => h x (List.mem_cons_of_mem o hx))

theorem cancelSymTr_single (target : Order) (o0 : Order) (l2 : List Order)
    (hm : jsEqOptStr target.id o0.id = true)
    (hl2 : ∀ o ∈ l2, jsEqOptStr target.id o.id = false) :
    ∀ (l1 : List Order), (∀ o ∈ l1, jsEqOptStr target.id o.id = false) →
    ∀ trs, cancelSymTr target (l1 ++ o0 :: l2) trs = cancelMatchTrades o0 trs := by
  intro l1
  induction l1 with
  | nil =>
    intro _ trs
    rw [List.nil_append, cancelSymTr, hm]
    simp only [if_true]
    cases hc : cancelMatchTrades o0 trs with
    | none => rfl
    | some trs' =>
      simp only [Option.some_bind]
      exact cancelSymTr_no_match target l2 trs' hl2
  | cons o l1' ih =>
    intro h trs
    rw [List.cons_append, cancelSymTr, h o (List.mem_cons_self o _)]
    simp only [Bool.false_eq_true, if_false]
    exact ih (fun x hx => h x (List.mem_cons_of_mem o hx)) trs

theorem cancelEntriesTr_congr (target : Order) :
    ∀ (entries : List (String × List Order)) (trm1 trm2 : SymMap (List Trade)),
      (∀ k, trm1.find? k = trm2.find? k) →
      (cancelEntriesTr target entries trm1).map (fun m => fun k => m.find? k) =
        (cancelEntriesTr target entries trm2).map (fun m => fun k => m.find? k) := by
  intro entries
  induction entries with
  | nil =>
    intro trm1 trm2 h
    simp only [cancelEntriesTr, Option.map_some']
    congr 1
    funext k
    exact h k
  | cons p rest ih =>
    intro trm1 trm2 h
    obtain ⟨s, l⟩ := p
    rw [cancelEntriesTr, cancelEntriesTr, h s]
    cases hc : cancelSymTr target l (trm2.find? s) with
    | none => rfl
    | some trOpt =>
      cases trOpt with
      | none => exact ih trm1 trm2 h
      | some tl =>
        refine ih _ _ ?_
        intro k
        rw [SymMap.find?_setKey_eq, SymMap.find?_setKey_eq]
        by_cases hk : s = k
        · rw [if_pos hk, if_pos hk]
        · rw [if_neg hk, if_neg hk]
          exact h k

theorem cancelEntriesTr_no_match (target : Order) :
    ∀ (entries : List (String × List Order)) (trm : SymMap (List Trade)),
      (∀ p ∈ entries, ∀ o ∈ p.2, jsEqOptStr target.id o.id = false) →
      (cancelEntriesTr target entries trm).map (fun m => fun k => m.find? k) =
        some (fun k => trm.find? k) := by
  intro entries
  induction entries with
  | nil => intro trm _; rfl
  | cons p rest ih =>
    intro trm h
    obtain ⟨s, l⟩ := p
    rw [cancelEntriesTr,
      cancelSymTr_no_match target l (trm.find? s) (h (s, l) (List.mem_cons_self _ _))]
    cases hts : trm.find? s with
    | none =>
      exact ih trm (fun p hp => h p (List.mem_cons_of_mem _ hp))
    | some tl =>
      rw [ih (trm.setKey s tl) (fun p hp => h p (List.mem_cons_of_mem _ hp))]
      congr 1
      funext k
      rw [SymMap.find?_setKey_eq]
      by_cases hk : s = k
      · rw [if_pos hk, ← hk, hts]
      · rw [if_neg hk]

theorem cancelEntriesTr_single (target : Order) (s0 : String) (o0 : Order)
    (l1 l2 : List Order) (e2 : List (String × List Order))
    (hm : jsEqOptStr target.id o0.id = true)
    (hl1 : ∀ o ∈ l1, jsEqOptStr target.id o.id = false)
    (hl2 : ∀ o ∈ l2, jsEqOptStr target.id o.id = false)
    (he2 : ∀ p ∈ e2, ∀ o ∈ p.2, jsEqOptStr target.id o.id = false) :
    ∀ (e1 : List (String × List Order)) (trm : SymMap (List Trade)),
      (∀ p ∈ e1, ∀ o ∈ p.2, jsEqOptStr target.id o.id = false) →
      (cancelEntriesTr target (e1 ++ (s0, l1 ++ o0 :: l2) :: e2) trm).map
          (fun m => fun k => m.find? k) =
        (cancelMatchTrades o0 (trm.find? s0)).map (fun trOpt => fun k =>
          match trOpt with
          | some tl => if s0 = k then some tl else trm.find? k
          | none => trm.find? k) := by
  intro e1
  induction e1 with
  | nil =>
    intro trm _
    rw [List.nil_append, cancelEntriesTr,
      cancelSymTr_single target o0 l2 hm hl2 l1 hl1 (trm.find? s0)]
    cases hc : cancelMatchTrades o0 (trm.find? s0) with
    | none => rfl
    | some trOpt =>
      simp only [Option.map_some']
      cases trOpt with
      | none =>
        exact cancelEntriesTr_no_match target e2 trm he2
      | some tl =>
        rw [cancelEntriesTr_no_match target e2 (trm.setKey s0 tl) he2]
        congr 1
        funext k
        rw [SymMap.find?_setKey_eq]
  | cons p rest ih =>
    intro trm h1
    obtain ⟨s, l⟩ := p
    rw [List.cons_append, cancelEntriesTr,
      cancelSymTr_no_match target l (trm.find? s) (h1 (s, l) (List.mem_cons_self _ _))]
    cases hts : trm.find? s with
    | none =>
      exact ih trm (fun p hp => h1 p (List.mem_cons_of_mem _ hp))
    | some tl =>
      have hfe : ∀ k, (trm.setKey s tl).find? k = trm.find? k := by
        intro k
        rw [SymMap.find?_setKey_eq]
        by_cases hk : s = k
        · rw [if_pos hk, ← hk, hts]
        · rw [if_neg hk]
      rw [cancelEntriesTr_congr target _ (trm.setKey s tl) trm hfe]
      exact ih trm (fun p hp => h1 p (List.mem_cons_of_mem _ hp))

theorem cancelTradeUpd_none_iff (o : Order) :
    ∀ tl : List Trade, (cancelTradeUpd o tl = none ↔
      ∃ tr, tl.find? (fun tr => jsEqOptStr (some tr.id) o.tradeid) = some tr ∧
        tr.protect = none) := by
  intro tl
  induction tl with
  | nil => simp [cancelTradeUpd, List.find?]
  | cons tr rest ih =>
    rw [cancelTradeUpd]
    by_cases hm : jsEqOptStr (some tr.id) o.tradeid
    · rw [if_pos hm, List.find?_cons_of_pos rest hm]
      cases hp : tr.protect with
      | none => simp [hp]
      | some p => simp [hp]
    · have hm' : (jsEqOptStr (some tr.id) o.tradeid) = false := by
        simpa using hm
      rw [if_neg hm, List.find?_cons_of_neg rest (by simp [hm'])]
      rw [← ih]
      cases hc : cancelTradeUpd o rest with
      | none => simp
      | some l => simp

theorem cancelMatchTrades_none_iff (o : Order) (trs : Option (List Trade)) :
    cancelMatchTrades o trs = none ↔
      (truthyStr o.tradeid = true ∧
        ∃ tl, trs = some tl ∧ cancelTradeUpd o tl = none) := by
  unfold cancelMatchTrades
  by_cases ht : truthyStr o.tradeid
  · rw [if_pos ht]
    cases trs with
    | none => simp [ht]
    | some tl =>
      simp only [ht, true_and]
      cases hc : cancelTradeUpd o tl with
      | none => simp [hc]
      | some tl' => simp [hc]
  · rw [if_neg ht]
    simp only [Bool.not_eq_true] at ht
    simp [ht]

theorem cancelTradeUpd_spec (o : Order) :
    ∀ (tl : List Trade) (tr0 : Trade) (p0 : Protect),
      tl.find? (fun tr => jsEqOptStr (some tr.id) o.tradeid) = some tr0 →
      tr0.protect = some p0 →
      ∃ tl1 tl2, tl = tl1 ++ tr0 :: tl2 ∧
        (∀ tr ∈ tl1, jsEqOptStr (some tr.id) o.tradeid = false) ∧
        cancelTradeUpd o tl = some (tl1 ++
          { tr0 with protect :=
              (let p' := if truthy o.stop then { p0 with stop := none }
                         else if truthy o.limit then { p0 with limit := none } else p0;
               if !truthy p'.stop && !truthy p'.limit then none else some p') } :: tl2) := by
  intro tl
  induction tl with
  | nil => intro tr0 p0 hfind _; simp [List.find?] at hfind
  | cons tr rest ih =>
    intro tr0 p0 hfind hp
    by_cases hm : jsEqOptStr (some tr.id) o.tradeid
    · rw [List.find?_cons_of_pos rest hm] at hfind
      injection hfind with he
      subst he
      refine ⟨[], rest, rfl, by simp, ?_⟩
      rw [cancelTradeUpd, if_pos hm, hp]
      rfl
    · have hm' : (jsEqOptStr (some tr.id) o.tradeid) = false := by simpa using hm
      rw [List.find?_cons_of_neg rest (by simp [hm'])] at hfind
      obtain ⟨tl1, tl2, hsplit, hnom, heq⟩ := ih tr0 p0 hfind hp
      refine ⟨tr :: tl1, tl2, by rw [hsplit]; rfl, ?_, ?_⟩
      · intro x hx
        rcases List.mem_cons.mp hx with h1 | h1
        · rw [h1]; exact hm'
        · exact hnom x h1
      · rw [cancelTradeUpd, if_neg hm, heq]
        rfl

/-- C9: with a unique matched open order o0 at symbol s0 (the book splits
around it, all other orders not matching the cancel id), cancelOrder faults
(TypeError on the missing protect object) exactly when o0 carries a truthy
tradeid, the symbol has a trade list, and the first trade matching the
tradeid has no protect object; in every other case the call completes and
invokes cb. -/
theorem cancelOrder_protect_total (target : Order) (a : Demo)
    (e1 e2 : List (String × List Order)) (s0 : String) (l1 l2 : List Order)
    (o0 : Order)
    (hsplit : a.openOrders = e1 ++ (s0, l1 ++ o0 :: l2) :: e2)
    (hm : jsEqOptStr target.id o0.id = true)
    (he1 : ∀ p ∈ e1, ∀ o ∈ p.2, jsEqOptStr target.id o.id = false)
    (he2 : ∀ p ∈ e2, ∀ o ∈ p.2, jsEqOptStr target.id o.id = false)
    (hl1 : ∀ o ∈ l1, jsEqOptStr target.id o.id = false)
    (hl2 : ∀ o ∈ l2, jsEqOptStr target.id o.id = false) :
    cancelOrder target a = none ↔
      (truthyStr o0.tradeid = true ∧
        ∃ tl, a.trades.find? s0 = some tl ∧
          ∃ tr, tl.find? (fun tr => jsEqOptStr (some tr.id) o0.tradeid) = some tr ∧
            tr.protect = none) := by
  unfold cancelOrder
  rw [cancelEntries_eq, hsplit]
  have hsingle := cancelEntriesTr_single target s0 o0 l1 l2 e2 hm hl1 hl2 he2 e1
    a.trades he1
  constructor
  · intro h
    have h0 : cancelEntriesTr target (e1 ++ (s0, l1 ++ o0 :: l2) :: e2) a.trades
        = none := by
      cases hc : cancelEntriesTr target (e1 ++ (s0, l1 ++ o0 :: l2) :: e2) a.trades with
      | none => rfl
      | some t => rw [hc] at h; simp at h
    rw [h0] at hsingle
    have h1 : cancelMatchTrades o0 (a.trades.find? s0) = none := by
      cases hc : cancelMatchTrades o0 (a.trades.find? s0) with
      | none => rfl
      | some t => rw [hc] at hsingle; simp at hsingle
    rw [cancelMatchTrades_none_iff] at h1
    obtain ⟨ht, tl, htl, hupd⟩ := h1
    rw [cancelTradeUpd_none_iff] at hupd
    obtain ⟨tr, hfind, hp⟩ := hupd
    exact ⟨ht, tl, htl, tr, hfind, hp⟩
  · rintro ⟨ht, tl, htl, tr, hfind, hp⟩
    have h1 : cancelMatchTrades o0 (a.trades.find? s0) = none := by
      rw [cancelMatchTrades_none_iff]
      exact ⟨ht, tl, htl, (cancelTradeUpd_none_iff o0 tl).mpr ⟨tr, hfind, hp⟩⟩
    rw [h1] at hsingle
    have h0 : cancelEntriesTr target (e1 ++ (s0, l1 ++ o0 :: l2) :: e2) a.trades
        = none := by
      cases hc : cancelEntriesTr target (e1 ++ (s0, l1 ++ o0 :: l2) :: e2) a.trades with
      | none => rfl
      | some t => rw [hc] at hsingle; simp at hsingle
    rw [h0]
    rfl

/-- A protective open order whose linked trade lacks a protect object. -/
def c9Order : Order :=
  { id := some "4", symbol := "GE", action := "sell", quantity := 100,
    limit := some 30, stop := none, marketIfTouched := none, tif := "GTC",
    oco := OcoRef.jnull, tradeid := some "GE001", vspId := none, oto := none }

/-- The linked trade, carrying no protect object. -/
def c9Trade : Trade :=
  { id := "GE001", time := 0, quantity := 100, basis := 26, price := 24,
    protect := none }

/-- Account whose open order links a protect-less trade. -/
def acct9 : Demo :=
  { cash := 0, buyingPower := 0, positions := [],
    trades := [("GE", [c9Trade])], openOrders := [("GE", [c9Order])], nextId := 0 }

/-- The cancel request naming the order id 4. -/
def c9Target : Order :=
  { id := some "4", symbol := "GE", action := "sell", quantity := 100,
    limit := none, stop := none, marketIfTouched := none, tif := "GTC",
    oco := OcoRef.jnull, tradeid := none, vspId := none, oto := none }

/-- C9 witness: on the concrete account whose matched order links a
protect-less trade, the fault characterization yields a faulting run. -/
theorem cancelOrder_protect_total_witness :
    cancelOrder c9Target acct9 = none :=
  (cancelOrder_protect_total c9Target acct9 [] [] "GE" [] [] c9Order rfl
    (by decide)
    (fun p hp => absurd hp (List.not_mem_nil p))
    (fun p hp => absurd hp (List.not_mem_nil p))
    (fun o ho => absurd ho (List.not_mem_nil o))
    (fun o ho => absurd ho (List.not_mem_nil o))).mpr
    ⟨by decide, [c9Trade], rfl, c9Trade, rfl, rfl⟩

/-- C3: for a completing cancel with a unique matched order o0 at symbol s0:
(1) in every symbol list, exactly the orders matching the cancel id are
removed and every order whose oco references the cancel id remains with oco
nulled, all others kept unchanged; (2) when o0 carries a truthy tradeid and
the symbol has a trade list whose first tradeid-matching trade holds a
protect object, that trade has its stop leg cleared (when o0 carries a
truthy stop) or else its limit leg (when o0 carries a truthy limit), the
whole protect object disappearing when neither leg remains truthy, while
every other trade and every other symbol trade list stays unchanged. -/
theorem cancelOrder_semantics (target : Order) (a a' : Demo)
    (e1 e2 : List (String × List Order)) (s0 : String) (l1 l2 : List Order)
    (o0 : Order)
    (hsplit : a.openOrders = e1 ++ (s0, l1 ++ o0 :: l2) :: e2)
    (hm : jsEqOptStr target.id o0.id = true)
    (he1 : ∀ p ∈ e1, ∀ o ∈ p.2, jsEqOptStr target.id o.id = false)
    (he2 : ∀ p ∈ e2, ∀ o ∈ p.2, jsEqOptStr target.id o.id = false)
    (hl1 : ∀ o ∈ l1, jsEqOptStr target.id o.id = false)
    (hl2 : ∀ o ∈ l2, jsEqOptStr target.id o.id = false)
    (h : cancelOrder target a = some a') :
    (∀ s, a'.openOrders.find? s = (a.openOrders.find? s).map (fun l =>
      l.filterMap (fun o =>
        if jsEqOptStr target.id o.id then none
        else if ocoMatches target.id o.oco then some { o with oco := OcoRef.jnull }
        else some o))) ∧
    (∀ tl tr0 p0, truthyStr o0.tradeid = true →
      a.trades.find? s0 = some tl →
      tl.find? (fun tr => jsEqOptStr (some tr.id) o0.tradeid) = some tr0 →
      tr0.protect = some p0 →
      (∃ tl1 tl2, tl = tl1 ++ tr0 :: tl2 ∧
        (∀ tr ∈ tl1, jsEqOptStr (some tr.id) o0.tradeid = false) ∧
        a'.trades.find? s0 = some (tl1 ++
          { tr0 with protect :=
              (let p' := if truthy o0.stop then { p0 with stop := none }
                         else if truthy o0.limit then { p0 with limit := none } else p0;
               if !truthy p'.stop && !truthy p'.limit then none else some p') } :: tl2)) ∧
      (∀ s, s ≠ s0 → a'.trades.find? s = a.trades.find? s)) := by
  unfold cancelOrder at h
  rw [cancelEntries_eq] at h
  cases hE : cancelEntriesTr target a.openOrders a.trades with
  | none => rw [hE] at h; simp at h
  | some trmF =>
    rw [hE] at h
    simp only [Option.map_some'] at h
    injection h with h'
    subst h'
    constructor
    · intro s
      show SymMap.find? (a.openOrders.map (fun p => (p.1, cancelList target p.2))) s = _
      rw [find?_map_values]
      cases hfind : a.openOrders.find? s with
      | none => rfl
      | some l =>
        simp only [Option.map_some']
        rw [cancelList_eq_filterMap]
    · intro tl tr0 p0 ht htl hfind hp
      have hsingle := cancelEntriesTr_single target s0 o0 l1 l2 e2 hm hl1 hl2 he2 e1
        a.trades he1
      rw [← hsplit, hE] at hsingle
      obtain ⟨tl1, tl2, hdec, hnom, hupd⟩ := cancelTradeUpd_spec o0 tl tr0 p0 hfind hp
      have hcm : cancelMatchTrades o0 (a.trades.find? s0) =
          some (some (tl1 ++
            { tr0 with protect :=
                (let p' := if truthy o0.stop then { p0 with stop := none }
                           else if truthy o0.limit then { p0 with limit := none } else p0;
                 if !truthy p'.stop && !truthy p'.limit then none else some p') } :: tl2)) := by
        rw [htl]
        unfold cancelMatchTrades
        rw [if_pos ht]
        dsimp only
        rw [hupd]
        rfl
      rw [hcm] at hsingle
      simp only [Option.map_some'] at hsingle
      injection hsingle with hfun
      have hk := congrFun hfun
      refine ⟨⟨tl1, tl2, hdec, hnom, ?_⟩, ?_⟩
      · have h0 := hk s0
        simp only [if_pos rfl] at h0
        exact h0
      · intro s hss
        have h0 := hk s
        rw [if_neg (fun hh => hss hh.symm)] at h0
        exact h0

/-- The cancel request naming order id 4 of the OCO pair below. -/
def c3Target : Order :=
  { id := some "4", symbol := "GE", action := "sell", quantity := 100,
    limit := none, stop := none, marketIfTouched := none, tif := "GTC",
    oco := OcoRef.jnull, tradeid := none, vspId := none, oto := none }

/-- The limit leg of a concrete OCO pair protecting trade GE001. -/
def c3Order4 : Order :=
  { id := some "4", symbol := "GE", action := "sell", quantity := 100,
    limit := some 30, stop := none, marketIfTouched := none, tif := "GTC",
    oco := OcoRef.jid "5", tradeid := some "GE001", vspId := none, oto := none }

/-- The stop leg of the pair, oco-linked back to the limit leg. -/
def c3Order5 : Order :=
  { id := some "5", symbol := "GE", action := "sell", quantity := 100,
    limit := none, stop := some 25, marketIfTouched := none, tif := "GTC",
    oco := OcoRef.jid "4", tradeid := some "GE001", vspId := none, oto := none }

/-- The protected trade with both bracket legs. -/
def c3Trade : Trade :=
  { id := "GE001", time := 0, quantity := 100, basis := 26, price := 24,
    protect := some { limit := some 30, stop := some 25 } }

/-- Account holding the protected trade and its OCO pair. -/
def acct3 : Demo :=
  { cash := 0, buyingPower := 0, positions := [],
    trades := [("GE", [c3Trade])],
    openOrders := [("GE", [c3Order4, c3Order5])], nextId := 0 }

/-- Expected account after cancelling order 4: the limit leg is gone, the
sibling stop leg stays with oco nulled, and the trade keeps only its stop
protection. -/
def acct3' : Demo :=
  { cash := 0, buyingPower := 0, positions := [],
    trades := [("GE", [{ c3Trade with protect := some { limit := none, stop := some 25 } }])],
    openOrders := [("GE", [{ c3Order5 with oco := OcoRef.jnull }])], nextId := 0 }

/-- C3 witness: the cancel-semantics theorem applied to the concrete OCO
pair, cancelling the limit leg. -/
theorem cancelOrder_semantics_witness :
    acct3'.openOrders.find? "GE" = (acct3.openOrders.find? "GE").map (fun l =>
      l.filterMap (fun o =>
        if jsEqOptStr c3Target.id o.id then none
        else if ocoMatches c3Target.id o.oco then some { o with oco := OcoRef.jnull }
        else some o)) :=
  (cancelOrder_semantics c3Target acct3 acct3' [] [] "GE" [] [c3Order5] c3Order4 rfl
    (by decide)
    (fun p hp => absurd hp (List.not_mem_nil p))
    (fun p hp => absurd hp (List.not_mem_nil p))
    (fun o ho => absurd ho (List.not_mem_nil o))
    (by decide)
    (by decide)).1 "GE"
